import Mathlib

/-!
# Verification of the react-entity-picker-lab kanban core

Shallow embedding, in Lean 4, of the order-normalization, drag-and-drop
reorder/move engine, optimistic cache synchronization, server-side issue
patching, sprint activation, and the debounced cancellable search controller
of the repository, together with proofs of the behavioural properties
claimed for them.

Conventions of the embedding:
* TypeScript arrays become `List`, JS `null`/`undefined` become `Option`.
* JS numbers holding order keys become `Int` (they are always integers here).
* `Array.prototype.sort` with comparator `a.order - b.order` is stable, so it
  is embedded as a stable sort on `·.order ≤ ·.order`.
* Fallible server handlers (`NotFoundException`) return `Except Unit _`.
* A Prisma `$transaction` is a single atomic state transition, so a whole
  transaction is embedded as one pure function on the store.
-/

set_option linter.unusedVariables false

/-- The `IssueStatus` enum of the Prisma schema / `jira.types`. -/
inductive IssueStatus where
  | backlog
  | todo
  | in_progress
  | done
deriving DecidableEq, Repr

/-- The `Issue` record (fields relevant to the verified core). `sprintId` is
nullable (`none` = backlog scope); `order` is the integer ranking key. -/
structure Issue where
  id : String
  key : String
  boardId : String
  sprintId : Option String
  status : IssueStatus
  order : Int
  title : String
  description : String
  assigneeId : Option String
  watcherIds : List String
deriving DecidableEq, Repr

/-- Result entry of the server-side `normalizeOrders` in `BoardsService`,
which maps each item to `{ id: it.id, order: (idx + 1) * ORDER_STEP }`. -/
structure IdOrder where
  id : String
  order : Int
deriving DecidableEq, Repr

/-- Client-side `normalizeOrders` (BoardPage):
`list.slice().map((it, idx) => ({ ...it, order: (idx + 1) * 1000 }))`. -/
def normalizeOrders (list : List Issue) : List Issue :=
  list.enum.map fun p => { p.2 with order := ((p.1 : Int) + 1) * 1000 }

/-- Server-side `normalizeOrders` (BoardsService, `ORDER_STEP = 1000`):
`items.map((it, idx) => ({ id: it.id, order: (idx + 1) * ORDER_STEP }))`. -/
def normalizeOrdersServer (items : List Issue) : List IdOrder :=
  items.enum.map fun p => { id := p.2.id, order := ((p.1 : Int) + 1) * 1000 }

/-- The two board views of `BoardPage`: the backlog route (`sprintId` absent)
and the sprint-board route. -/
inductive View where
  | backlog
  | sprint
deriving DecidableEq, Repr

/-- `canShowStatus` of `BoardPage`: the backlog view displays only the
`backlog` column, the sprint view displays every non-backlog column. -/
def canShowStatus (view : View) (s : IssueStatus) : Bool :=
  match view with
  | .backlog => s = .backlog
  | .sprint => s ≠ .backlog

/-- A drag "over" identifier. In the source this is a string: either the
column sentinel `"status:" ++ statusKey` or another issue's id; issue ids
never take the sentinel form, so the two cases are embedded as a sum. -/
inductive DragOver where
  | column (s : IssueStatus)
  | item (id : String)
deriving DecidableEq, Repr

/-- `parseDropStatus` of `BoardPage`: decodes a `"status:..."` sentinel,
returns null for anything else. -/
def parseDropStatus : DragOver → Option IssueStatus
  | .column s => some s
  | .item _ => none

/-- `scopedIssues.find((x) => x.id === oId)`: a column sentinel never equals
an issue id, an item identifier is looked up among the loaded issues. -/
def overIssueOf (issues : List Issue) : DragOver → Option Issue
  | .column _ => none
  | .item oid => issues.find? (fun x : Issue => x.id = oid)

/-- `.slice().sort((a, b) => a.order - b.order)` — JS `Array.prototype.sort`
is stable, so the result is the unique stable sort by the `order` key,
embedded as the (stable) structural insertion sort so that the kernel can
evaluate concrete drags. -/
def sortByOrder (l : List Issue) : List Issue :=
  List.insertionSort (fun a b => a.order ≤ b.order) l

/-- JS `Array.prototype.findIndex`: index of the first match, `none` for the
sentinel `-1`. -/
def findIndex (p : Issue → Bool) : List Issue → Option Nat
  | [] => none
  | x :: t => if p x then some 0 else (findIndex p t).map (· + 1)

/-- The order-sorted contents of one status column, as recomputed by
`onDragEnd`: `scopedIssues.filter((i) => i.status === s).slice().sort(...)`. -/
def columnList (issues : List Issue) (s : IssueStatus) : List Issue :=
  sortByOrder (issues.filter (fun i => i.status = s))

/-- dnd-kit `arrayMove(array, from, to)`: remove the element at `from` and
re-insert it at `to`. Both callers pass in-range indices obtained from
`findIndex`. -/
def arrayMove (l : List Issue) (i j : Nat) : List Issue :=
  match l[i]? with
  | none => l
  | some x => (l.eraseIdx i).insertIdx j x

/-- A `Partial<Issue>` patch: a field is `some _` exactly when the key is
present in the JS object (`"field" in patch`). Nullable fields carry a
nested `Option` so that an explicit `null` is distinguishable from absence.
(`id`/`key` are never patched anywhere in the system.) -/
structure PatchInput where
  title : Option String := none
  description : Option String := none
  status : Option IssueStatus := none
  order : Option Int := none
  assigneeId : Option (Option String) := none
  watcherIds : Option (List String) := none
  sprintId : Option (Option String) := none
deriving DecidableEq, Repr

/-- `IssueChange = { id: string; patch: Partial<Issue> }`. -/
structure IssueChange where
  id : String
  patch : PatchInput
deriving DecidableEq, Repr

/-- `onDragEnd` of the `BoardPage` variant that requires an explicit over
issue for same-column reorders (src/unnamed/part_000-style BoardPage,
claims' `part_004`). Returns `none` when the handler bails out without
calling `batchPatch.mutate`, and `some changes` for the emitted patch set. -/
def onDragEnd (view : View) (scopedIssues : List Issue) (aId : String)
    (oId : Option DragOver) : Option (List IssueChange) :=
  match oId with
  | none => none
  | some over =>
    match scopedIssues.find? (fun x : Issue => x.id = aId) with
    | none => none
    | some active =>
      let overIssue := overIssueOf scopedIssues over
      let toStatus? :=
        match parseDropStatus over with
        | some s => some s
        | none => overIssue.map (fun x : Issue => x.status)
      match toStatus? with
      | none => none
      | some toStatus =>
        if !(canShowStatus view toStatus) then none
        else
          let fromStatus := active.status
          let fromList := columnList scopedIssues fromStatus
          let toList := columnList scopedIssues toStatus
          if fromStatus = toStatus then
            match overIssue with
            | none => none
            | some ov =>
              let list := columnList scopedIssues fromStatus
              match findIndex (fun x : Issue => x.id = aId) list,
                    findIndex (fun x : Issue => x.id = ov.id) list with
              | some oldIndex, some newIndex =>
                if oldIndex = newIndex then none
                else
                  some ((normalizeOrders (arrayMove list oldIndex newIndex)).map
                    (fun it : Issue => ({ id := it.id, patch := { order := some it.order } } : IssueChange)))
              | _, _ => none
          else
            let fromWithout := fromList.filter (fun x : Issue => x.id ≠ aId)
            let moved := { active with status := toStatus }
            let toNext := toList.filter (fun x : Issue => x.id ≠ aId)
            let insertAt :=
              match overIssue with
              | some ov => max 0 ((findIndex (fun x : Issue => x.id = ov.id) toNext).getD 0)
              | none => toNext.length
            let toNext2 :=
              if insertAt ≤ toNext.length then toNext.insertIdx insertAt moved
              else toNext ++ [moved]
            let normalizedTo := normalizeOrders toNext2
            let normalizedFrom := normalizeOrders fromWithout
            some (normalizedTo.map (fun it : Issue =>
                ({ id := it.id, patch := { status := some it.status, order := some it.order } } : IssueChange)) ++
              normalizedFrom.map (fun it : Issue =>
                ({ id := it.id, patch := { order := some it.order } } : IssueChange)))

/-- `onDragEnd` of the virtualization-aware `BoardPage` variant (claims'
`part_002`): falls back to the last drag-over id when `over` is null, and in
a same-column drop with no resolvable over issue treats the drop as a move
to the column's last index instead of bailing out. -/
def onDragEndVirtual (view : View) (scopedIssues : List Issue) (aId : String)
    (rawOverId : Option DragOver) (lastOver : Option DragOver) :
    Option (List IssueChange) :=
  let oId? := match rawOverId with
    | some o => some o
    | none => lastOver
  match oId? with
  | none => none
  | some over =>
    match scopedIssues.find? (fun x : Issue => x.id = aId) with
    | none => none
    | some active =>
      let overIssue := overIssueOf scopedIssues over
      let toStatus? :=
        match parseDropStatus over with
        | some s => some s
        | none => overIssue.map (fun x : Issue => x.status)
      match toStatus? with
      | none => none
      | some toStatus =>
        if !(canShowStatus view toStatus) then none
        else
          let fromStatus := active.status
          let fromList := columnList scopedIssues fromStatus
          let toList := columnList scopedIssues toStatus
          if fromStatus = toStatus then
            let list := fromList
            match findIndex (fun x : Issue => x.id = aId) list with
            | none => none
            | some oldIndex =>
              let newIndex? :=
                match overIssue with
                | some ov => findIndex (fun x : Issue => x.id = ov.id) list
                | none => some (list.length - 1)
              match newIndex? with
              | none => none
              | some newIndex =>
                if oldIndex = newIndex then none
                else
                  some ((normalizeOrders (arrayMove list oldIndex newIndex)).map
                    (fun it : Issue => ({ id := it.id, patch := { order := some it.order } } : IssueChange)))
          else
            let fromWithout := fromList.filter (fun x : Issue => x.id ≠ aId)
            let moved := { active with status := toStatus }
            let toNext := toList.filter (fun x : Issue => x.id ≠ aId)
            let insertAt :=
              match overIssue with
              | some ov => max 0 ((findIndex (fun x : Issue => x.id = ov.id) toNext).getD 0)
              | none => toNext.length
            let toNext2 :=
              if insertAt ≤ toNext.length then toNext.insertIdx insertAt moved
              else toNext ++ [moved]
            let normalizedTo := normalizeOrders toNext2
            let normalizedFrom := normalizeOrders fromWithout
            some (normalizedTo.map (fun it : Issue =>
                ({ id := it.id, patch := { status := some it.status, order := some it.order } } : IssueChange)) ++
              normalizedFrom.map (fun it : Issue =>
                ({ id := it.id, patch := { order := some it.order } } : IssueChange)))

/-- The `Sprint` record. -/
structure Sprint where
  id : String
  boardId : String
  name : String
  isActive : Bool
deriving DecidableEq, Repr

/-- `tx.sprint.updateMany({ where: { boardId, isActive: true }, data: {
isActive: false } })`. -/
def deactivateAll (db : List Sprint) (boardId : String) : List Sprint :=
  db.map (fun s : Sprint =>
    if s.boardId = boardId ∧ s.isActive then { s with isActive := false } else s)

/-- `tx.sprint.update({ where: { id: sprintId }, data: { isActive: true } })`. -/
def activateSprint (db : List Sprint) (sprintId : String) : List Sprint :=
  db.map (fun s : Sprint =>
    if s.id = sprintId then { s with isActive := true } else s)

/-- First `BoardsService.setActiveSprint` variant: no board-membership
check. The transaction (deactivate all of the board's active sprints, then
activate `sprintId`) is one atomic transition; it fails — leaving the store
unchanged — only when `sprintId` does not exist at all (the inner `update`
throws, rolling the transaction back). -/
def setActiveSprintUnchecked (db : List Sprint) (boardId sprintId : String) :
    Except Unit (List Sprint) :=
  if (db.find? (fun s : Sprint => s.id = sprintId)).isSome then
    .ok (activateSprint (deactivateAll db boardId) sprintId)
  else .error ()

/-- Second `BoardsService.setActiveSprint` variant: first ensures via
`findFirst({ where: { id: sprintId, boardId } })` that the sprint belongs to
the board (`NotFoundException` otherwise), then runs the same transaction. -/
def setActiveSprint (db : List Sprint) (boardId sprintId : String) :
    Except Unit (List Sprint) :=
  match db.find? (fun s : Sprint => s.id = sprintId ∧ s.boardId = boardId) with
  | none => .error ()
  | some _ => .ok (activateSprint (deactivateAll db boardId) sprintId)

/-- `BoardsService.createSprint`: `isActive = !!args.isActive`; when active,
the transaction first deactivates the board's active sprints, then creates
the new sprint (`newId` is the id the store assigns). -/
def createSprint (db : List Sprint) (boardId : String) (name : String)
    (isActiveArg : Option Bool) (newId : String) : List Sprint :=
  let isActive := isActiveArg.getD false
  let db1 := if isActive then deactivateAll db boardId else db
  db1 ++ [{ id := newId, boardId := boardId, name := name, isActive := isActive }]

/-- The sprints of a board that are currently marked active. -/
def activeSprints (db : List Sprint) (boardId : String) : List Sprint :=
  db.filter (fun s : Sprint => s.boardId = boardId ∧ s.isActive)

/-- Invariant: at most one sprint per board has `isActive = true`. -/
def atMostOneActive (db : List Sprint) : Prop :=
  ∀ b : String, (activeSprints db b).length ≤ 1

/-- Request body of the server-side move:
`{ sprintId: string | null; status?: string; order?: number }`.
`sprintId := none` covers both JSON `null` and an absent key, matching the
code's `body.sprintId ?? null`. -/
structure MoveBody where
  sprintId : Option String
  status : Option IssueStatus := none
  order : Option Int := none
deriving DecidableEq, Repr

/-- `issue.findMany({ where: { boardId, sprintId, status }, orderBy: {
order: "asc" } })` — one (board, sprint, status) column. -/
def partitionList (db : List Issue) (boardId : String) (sprintId : Option String)
    (status : IssueStatus) : List Issue :=
  sortByOrder (db.filter (fun i : Issue =>
    i.boardId = boardId ∧ i.sprintId = sprintId ∧ i.status = status))

/-- `BoardsService.moveIssue`. The moved issue is appended at the end of the
destination column (`toNext = [...toList, { ...issue, sprintId, status }]`),
both affected columns are renumbered with the server `normalizeOrders`, and
the transaction applies: the moved issue's new sprint/status/order, the new
orders of the remaining source column, and the new orders of the rest of
the destination column. The code's non-null assertion
`normalizedTo.find((x) => x.id === id)!` is embedded with a dead default of
`0` (the id is always present, having just been appended). -/
def moveIssue (db : List Issue) (boardId id : String) (body : MoveBody) :
    Except Unit (List Issue) :=
  match db.find? (fun i : Issue => i.id = id) with
  | none => .error ()
  | some issue =>
    if issue.boardId ≠ boardId then .error ()
    else
      let fromSprintId := issue.sprintId
      let fromStatus := issue.status
      let toSprintId := body.sprintId
      let toStatus := body.status.getD (if toSprintId.isSome then .todo else .backlog)
      if fromSprintId = toSprintId ∧ fromStatus = toStatus then .ok db
      else
        let fromList := partitionList db boardId fromSprintId fromStatus
        let toList := partitionList db boardId toSprintId toStatus
        let fromWithout := fromList.filter (fun x : Issue => x.id ≠ id)
        let toNext := toList ++ [{ issue with sprintId := toSprintId, status := toStatus }]
        let normalizedFrom := normalizeOrdersServer fromWithout
        let normalizedTo := normalizeOrdersServer toNext
        let movedOrder :=
          ((normalizedTo.find? (fun x : IdOrder => x.id = id)).map
            (fun x : IdOrder => x.order)).getD 0
        .ok (db.map (fun it : Issue =>
          if it.id = id then
            { it with sprintId := toSprintId, status := toStatus, order := movedOrder }
          else
            match normalizedFrom.find? (fun u : IdOrder => u.id = it.id) with
            | some u => { it with order := u.order }
            | none =>
              match normalizedTo.find? (fun u : IdOrder => u.id = it.id) with
              | some u => { it with order := u.order }
              | none => it))

/-- The `Prisma.IssueUpdateInput` object accumulated by `IssuesService.patch`
and `buildBatchPatchData`: a field is `some _` when the service wrote it. -/
structure UpdateData where
  title : Option String := none
  description : Option String := none
  status : Option IssueStatus := none
  order : Option Int := none
  assigneeId : Option (Option String) := none
  watcherIds : Option (List String) := none
  sprintId : Option (Option String) := none
deriving DecidableEq, Repr

/-- The body of `IssuesService.patch` that turns the request patch into
update data: copies each present field, then — when `sprintId` is present —
forces `status` to `backlog` (move to backlog) or, if the existing issue is
in `backlog`, to `todo` (move into a sprint). The `status` key is copied
first, so these forced writes overwrite an explicitly supplied status. -/
def buildPatchData (existing : Issue) (patch : PatchInput) : UpdateData :=
  let d : UpdateData := {}
  let d := match patch.title with | some v => { d with title := some v } | none => d
  let d := match patch.description with | some v => { d with description := some v } | none => d
  let d := match patch.status with | some v => { d with status := some v } | none => d
  let d := match patch.order with | some v => { d with order := some v } | none => d
  let d := match patch.assigneeId with | some v => { d with assigneeId := some v } | none => d
  let d := match patch.watcherIds with | some v => { d with watcherIds := some v } | none => d
  match patch.sprintId with
  | some sid =>
    let d := { d with sprintId := some sid }
    match sid with
    | none => { d with status := some .backlog }
    | some _ => if existing.status = .backlog then { d with status := some .todo } else d
  | none => d

/-- `IssuesService.buildBatchPatchData`: same shape but without `title` /
`description`, and the sprint rules ignore the existing status entirely:
`sprintId === null` forces `backlog`, any non-null sprint forces `todo`. -/
def buildBatchPatchData (patch : PatchInput) : UpdateData :=
  let d : UpdateData := {}
  let d := match patch.status with | some v => { d with status := some v } | none => d
  let d := match patch.order with | some v => { d with order := some v } | none => d
  let d := match patch.assigneeId with | some v => { d with assigneeId := some v } | none => d
  let d := match patch.watcherIds with | some v => { d with watcherIds := some v } | none => d
  match patch.sprintId with
  | some sid =>
    let d := { d with sprintId := some sid }
    match sid with
    | none => { d with status := some .backlog }
    | some _ => { d with status := some .todo }
  | none => d

/-- Applying accumulated update data to the stored row. -/
def applyUpdate (i : Issue) (d : UpdateData) : Issue :=
  { i with
    title := d.title.getD i.title,
    description := d.description.getD i.description,
    status := d.status.getD i.status,
    order := d.order.getD i.order,
    assigneeId := d.assigneeId.getD i.assigneeId,
    watcherIds := d.watcherIds.getD i.watcherIds,
    sprintId := d.sprintId.getD i.sprintId }

/-- `IssuesService.patch`: `findUniqueOrThrow` then `update`. -/
def patchIssue (db : List Issue) (id : String) (p : PatchInput) :
    Except Unit (List Issue) :=
  match db.find? (fun i : Issue => i.id = id) with
  | none => .error ()
  | some existing =>
    .ok (db.map (fun it : Issue =>
      if it.id = id then applyUpdate it (buildPatchData existing p) else it))

/-- JS `new Map(changes.map((c) => [c.id, c.patch]))` lookup: a later entry
for the same id overwrites an earlier one, hence the reversed search. -/
def lookupPatch (changes : List IssueChange) (id : String) : Option PatchInput :=
  (changes.reverse.find? (fun c : IssueChange => c.id = id)).map
    (fun c : IssueChange => c.patch)

/-- The spread `{ ...it, ...patch }`: each field present in the patch
replaces the cached field, absent fields are kept. -/
def applyPatch (it : Issue) (p : PatchInput) : Issue :=
  { it with
    title := p.title.getD it.title,
    description := p.description.getD it.description,
    status := p.status.getD it.status,
    order := p.order.getD it.order,
    assigneeId := p.assigneeId.getD it.assigneeId,
    watcherIds := p.watcherIds.getD it.watcherIds,
    sprintId := p.sprintId.getD it.sprintId }

/-- `useBatchPatchIssues.onMutate` optimistic cache write:
`prev.map((it) => byId.get(it.id) ? { ...it, ...patch } : it)`. -/
def batchPatchOnMutate (prev : List Issue) (changes : List IssueChange) : List Issue :=
  prev.map (fun it : Issue =>
    match lookupPatch changes it.id with
    | some p => applyPatch it p
    | none => it)

/-- `CreateIssueInput = Omit<Issue, "id" | "key">`. -/
structure CreateIssueInput where
  boardId : String
  sprintId : Option String
  status : IssueStatus
  order : Int
  title : String
  description : String
  assigneeId : Option String
  watcherIds : List String
deriving DecidableEq, Repr

/-- The provisional id fabricated by `useCreateIssue.onMutate`:
`` `tmp_${crypto.randomUUID()}` ``. -/
def tempIdOf (uuid : String) : String := "tmp_" ++ uuid

/-- The optimistic entry `{ ...issue, id: tempId, key: "TMP" }`. -/
def optimisticIssue (input : CreateIssueInput) (uuid : String) : Issue :=
  { id := tempIdOf uuid, key := "TMP", boardId := input.boardId,
    sprintId := input.sprintId, status := input.status, order := input.order,
    title := input.title, description := input.description,
    assigneeId := input.assigneeId, watcherIds := input.watcherIds }

/-- `useCreateIssue.onMutate`: `qc.setQueryData(key, [...prev, optimistic])`. -/
def createOnMutate (prev : List Issue) (input : CreateIssueInput) (uuid : String) :
    List Issue :=
  prev ++ [optimisticIssue input uuid]

/-- `useCreateIssue.onSuccess`: replace the temp entry in place,
`prev.map((it) => (it.id === ctx.tempId ? created : it))`. -/
def createOnSuccess (cache : List Issue) (created : Issue) (tempId : String) :
    List Issue :=
  cache.map (fun it : Issue => if it.id = tempId then created else it)

/-- `useCreateIssue.onError`: `qc.setQueryData(key, ctx.prev)` — the cache is
restored verbatim from the snapshot. -/
def createOnError (cache : List Issue) (ctxPrev : List Issue) : List Issue :=
  ctxPrev

/-- JS `String.prototype.trim`, embedded structurally over the character
list so that the kernel can evaluate it on concrete queries. -/
def strTrim (s : String) : String :=
  ⟨((s.data.dropWhile Char.isWhitespace).reverse.dropWhile Char.isWhitespace).reverse⟩

/-- A search-result entity (`EntityBase`, identity and label only). -/
structure Entity where
  id : String
  label : String
deriving DecidableEq, Repr

/-- One dispatched search request: the identity of its cancellation token
(`rid`, one per `AbortController`), the effective query it was issued for,
and — for the multi-picker hook — the `isNewQuery` flag captured in the
response closure. -/
structure ReqInfo where
  rid : Nat
  query : String
  isNewQuery : Bool
deriving DecidableEq, Repr

/-- The observable state of one search-controller instance
(`useEntityMultiPicker` with no selection and `allowCreate` off, or
`EntityPicker`): result items, loading flag, error text, keyboard-highlight
index, the `lastQueryRef` value, plus request bookkeeping: `pending` holds
the dispatched requests that are neither aborted nor completed, `abortRef`
the rid owned by `abortRef.current`, `nextRid` a fresh-token counter. -/
structure PickerState where
  items : List Entity
  loading : Bool
  error : Option String
  activeIndex : Nat
  lastQuery : String
  pending : List ReqInfo
  abortRef : Option Nat
  nextRid : Nat
deriving DecidableEq, Repr

def initPicker : PickerState :=
  { items := [], loading := false, error := none, activeIndex := 0,
    lastQuery := "", pending := [], abortRef := none, nextRid := 0 }

/-- The discrete events driving the controller: the search effect re-running
with a new debounced input value (picker open), a response or a non-abort
rejection arriving for request `rid`, and the user moving the highlight. -/
inductive PickerEvent where
  | effectRun (debounced : String)
  | success (rid : Nat) (res : List Entity)
  | failure (rid : Nat)
  | arrowDown
  | arrowUp
deriving DecidableEq, Repr

/-- `abortRef.current?.abort()`: the request owned by the current controller
(if any) is marked aborted, i.e. removed from the pending set. -/
def abortCurrent (s : PickerState) : PickerState :=
  { s with pending := s.pending.filter (fun r : ReqInfo => some r.rid ≠ s.abortRef) }

/-- The request dispatched by one effect run: a fresh cancellation token,
the effective query, and the captured `isNewQuery := q !== lastQueryRef`. -/
def newRequest (s : PickerState) (q : String) : ReqInfo :=
  { rid := s.nextRid, query := q, isNewQuery := q ≠ s.lastQuery }

def isPending (s : PickerState) (rid : Nat) : Bool :=
  s.pending.any (fun r : ReqInfo => r.rid = rid)

/-- One transition of the search controller. `resetAlways = false` is the
multi-picker hook (highlight reset only on `isNewQuery`); `resetAlways =
true` is the single-select `EntityPicker`, whose success handler always
calls `setActiveIndex(0)`. Response events whose request is no longer
pending are the aborted/stale ones: the `controller.signal.aborted` guard
makes them leave the state untouched. `arrowDown`/`arrowUp` are the keyboard
handler's `setActiveIndex` calls with `totalOptions = items.length` (no
selection, no create row). -/
def pickerStep (minChars : Nat) (resetAlways : Bool) (s : PickerState) :
    PickerEvent → PickerState
  | .effectRun d =>
    let q := strTrim d
    if q.length < minChars then
      let s1 := abortCurrent s
      { s1 with items := [], error := none, loading := false,
                activeIndex := 0, lastQuery := q }
    else
      let s1 := abortCurrent s
      { s1 with
        pending := s1.pending ++ [newRequest s q],
        abortRef := some s.nextRid, nextRid := s.nextRid + 1,
        lastQuery := q, loading := true, error := none }
  | .success rid res =>
    match s.pending.find? (fun r : ReqInfo => r.rid = rid) with
    | none => s
    | some r =>
      { s with items := res,
               activeIndex := if resetAlways || r.isNewQuery then 0 else s.activeIndex,
               loading := false,
               pending := s.pending.filter (fun r2 : ReqInfo => r2.rid ≠ rid) }
  | .failure rid =>
    match s.pending.find? (fun r : ReqInfo => r.rid = rid) with
    | none => s
    | some _ =>
      { s with error := some "Failed to load results", items := [],
               activeIndex := 0, loading := false,
               pending := s.pending.filter (fun r2 : ReqInfo => r2.rid ≠ rid) }
  | .arrowDown =>
    { s with activeIndex := min (s.activeIndex + 1) (s.items.length - 1) }
  | .arrowUp =>
    { s with activeIndex := s.activeIndex - 1 }

def runPicker (minChars : Nat) (resetAlways : Bool) (s : PickerState)
    (evs : List PickerEvent) : PickerState :=
  evs.foldl (pickerStep minChars resetAlways) s

/-- At most one request is outstanding, and it is the one the current
`AbortController` owns. -/
def atMostOnePending (s : PickerState) : Prop :=
  s.pending = [] ∨ ∃ r : ReqInfo, s.pending = [r] ∧ s.abortRef = some r.rid

/-- Modelled from the spec: `useDebouncedValue.ts` is imported by both
pickers but its source file is not part of the snapshot. Per the spec's
debounce contract, the debounced value takes on an input value only after
the input has remained unchanged for the delay; every keystroke before the
delay elapses restarts it. For a keystroke trace at strictly increasing
times, a keystroke's value fires iff no further keystroke arrives within
`delay` ms (the final value always fires, once enough time passes). -/
def debounceFires (delay : Nat) : List (Nat × String) → List String
  | [] => []
  | [(_, s)] => [s]
  | (t₁, s₁) :: (t₂, s₂) :: rest =>
    if t₁ + delay ≤ t₂ then s₁ :: debounceFires delay ((t₂, s₂) :: rest)
    else debounceFires delay ((t₂, s₂) :: rest)

/-- The debounced value is React state: the search effect re-runs once per
change of that value (its only changing dependency), so consecutive equal
fired values trigger no re-run. The initial debounced value is `""`. -/
def changesFrom (prev : String) : List String → List String
  | [] => []
  | v :: rest => if v = prev then changesFrom prev rest else v :: changesFrom v rest

/-- The search queries actually dispatched for a keystroke trace: one per
effect re-run whose trimmed debounced value reaches `minChars`. -/
def dispatchedQueries (minChars delay : Nat) (keys : List (Nat × String)) :
    List String :=
  (changesFrom "" (debounceFires delay keys)).filterMap (fun d =>
    let q := strTrim d
    if minChars ≤ q.length then some q else none)

/-- A concrete issue value used by witnesses and counterexamples. -/
def sampleIssue (id : String) (st : IssueStatus) (ord : Int) : Issue :=
  { id := id, key := "K", boardId := "B", sprintId := none, status := st,
    order := ord, title := "", description := "", assigneeId := none,
    watcherIds := [] }

/-- A concrete create-input value used by witnesses. -/
def sampleInput : CreateIssueInput :=
  { boardId := "B", sprintId := none, status := .backlog, order := 1000,
    title := "t", description := "", assigneeId := none, watcherIds := [] }

/-- The store update performed by the success path of `moveIssue` (the
non-error, non-no-op branch), factored out of `moveIssue` verbatim so that
theorems can name it. -/
def moveApply (db : List Issue) (boardId id : String) (body : MoveBody)
    (issue : Issue) : List Issue :=
  let fromSprintId := issue.sprintId
  let fromStatus := issue.status
  let toSprintId := body.sprintId
  let toStatus := body.status.getD (if toSprintId.isSome then .todo else .backlog)
  let fromList := partitionList db boardId fromSprintId fromStatus
  let toList := partitionList db boardId toSprintId toStatus
  let fromWithout := fromList.filter (fun x : Issue => x.id ≠ id)
  let toNext := toList ++ [{ issue with sprintId := toSprintId, status := toStatus }]
  let normalizedFrom := normalizeOrdersServer fromWithout
  let normalizedTo := normalizeOrdersServer toNext
  let movedOrder :=
    ((normalizedTo.find? (fun x : IdOrder => x.id = id)).map
      (fun x : IdOrder => x.order)).getD 0
  db.map (fun it : Issue =>
    if it.id = id then
      { it with sprintId := toSprintId, status := toStatus, order := movedOrder }
    else
      match normalizedFrom.find? (fun u : IdOrder => u.id = it.id) with
      | some u => { it with order := u.order }
      | none =>
        match normalizedTo.find? (fun u : IdOrder => u.id = it.id) with
        | some u => { it with order := u.order }
        | none => it)

/-- A concrete issue sitting in sprint "S", used by the C9 witness. -/
def sampleSprintIssue : Issue :=
  { id := "b", key := "K", boardId := "B", sprintId := some "S",
    status := .todo, order := 1000, title := "", description := "",
    assigneeId := none, watcherIds := [] }

theorem normalizeOrders_length (l : List Issue) :
    (normalizeOrders l).length = l.length := by
  simp [normalizeOrders, List.enum_length]

theorem enumFrom_norm_map_order (n : Nat) (l : List Issue) :
    (((l.enumFrom n).map fun p =>
        { p.2 with order := ((p.1 : Int) + 1) * 1000 }).map (fun it => it.order)) =
      (List.range' n l.length).map (fun i : Nat => ((i : Int) + 1) * 1000) := by
  induction l generalizing n with
  | nil => rfl
  | cons a t ih => simp [List.enumFrom, List.range'_succ, ih]

theorem enumFrom_norm_map_id (n : Nat) (l : List Issue) :
    (((l.enumFrom n).map fun p =>
        { p.2 with order := ((p.1 : Int) + 1) * 1000 }).map (fun it => it.id)) =
      l.map (fun it => it.id) := by
  induction l generalizing n with
  | nil => rfl
  | cons a t ih => simp [List.enumFrom, ih]

theorem enumFrom_norm_map_status (n : Nat) (l : List Issue) :
    (((l.enumFrom n).map fun p =>
        { p.2 with order := ((p.1 : Int) + 1) * 1000 }).map (fun it => it.status)) =
      l.map (fun it => it.status) := by
  induction l generalizing n with
  | nil => rfl
  | cons a t ih => simp [List.enumFrom, ih]

theorem normalizeOrders_map_order (l : List Issue) :
    (normalizeOrders l).map (fun it => it.order) =
      (List.range l.length).map (fun i : Nat => ((i : Int) + 1) * 1000) := by
  rw [List.range_eq_range']
  exact enumFrom_norm_map_order 0 l

theorem normalizeOrders_map_id (l : List Issue) :
    (normalizeOrders l).map (fun it => it.id) = l.map (fun it => it.id) :=
  enumFrom_norm_map_id 0 l

theorem normalizeOrders_map_status (l : List Issue) :
    (normalizeOrders l).map (fun it => it.status) = l.map (fun it => it.status) :=
  enumFrom_norm_map_status 0 l

theorem normalizeOrders_pairwise_lt (l : List Issue) :
    List.Pairwise (· < ·) ((normalizeOrders l).map (fun it => it.order)) := by
  rw [normalizeOrders_map_order, List.pairwise_map]
  refine (List.pairwise_lt_range l.length).imp ?_
  intro a b h
  show ((a : Int) + 1) * 1000 < ((b : Int) + 1) * 1000
  omega

theorem enumFrom_srv_map_order (n : Nat) (l : List Issue) :
    (((l.enumFrom n).map fun p =>
        ({ id := p.2.id, order := ((p.1 : Int) + 1) * 1000 } : IdOrder)).map
          (fun it => it.order)) =
      (List.range' n l.length).map (fun i : Nat => ((i : Int) + 1) * 1000) := by
  induction l generalizing n with
  | nil => rfl
  | cons a t ih => simp [List.enumFrom, List.range'_succ, ih]

theorem enumFrom_srv_map_id (n : Nat) (l : List Issue) :
    (((l.enumFrom n).map fun p =>
        ({ id := p.2.id, order := ((p.1 : Int) + 1) * 1000 } : IdOrder)).map
          (fun it => it.id)) =
      l.map (fun it => it.id) := by
  induction l generalizing n with
  | nil => rfl
  | cons a t ih => simp [List.enumFrom, ih]

theorem normalizeOrdersServer_map_order (l : List Issue) :
    (normalizeOrdersServer l).map (fun it => it.order) =
      (List.range l.length).map (fun i : Nat => ((i : Int) + 1) * 1000) := by
  rw [List.range_eq_range']
  exact enumFrom_srv_map_order 0 l

theorem normalizeOrdersServer_map_id (l : List Issue) :
    (normalizeOrdersServer l).map (fun it => it.id) = l.map (fun it => it.id) :=
  enumFrom_srv_map_id 0 l

/-- **C1** — For every input sequence of `n` issues the Order Normalizer
returns `n` entries; the entry at 0-based position `i` carries order value
`(i+1)*1000` (stated as: the projected order sequence equals that function of
the range of indices, which also shows the result is deterministic and
independent of the order values the items carried before); the values are
strictly increasing and pairwise distinct. The server-side variant assigns
the same order sequence. -/
theorem C1_normalizeOrders_spec (l : List Issue) :
    (normalizeOrders l).length = l.length ∧
    (normalizeOrders l).map (fun it => it.order) =
      (List.range l.length).map (fun i : Nat => ((i : Int) + 1) * 1000) ∧
    List.Pairwise (· < ·) ((normalizeOrders l).map (fun it => it.order)) ∧
    List.Nodup ((normalizeOrders l).map (fun it => it.order)) ∧
    (normalizeOrdersServer l).map (fun it => it.order) =
      (List.range l.length).map (fun i : Nat => ((i : Int) + 1) * 1000) :=
  ⟨normalizeOrders_length l, normalizeOrders_map_order l,
    normalizeOrders_pairwise_lt l,
    (normalizeOrders_pairwise_lt l).imp ne_of_lt,
    normalizeOrdersServer_map_order l⟩

/-- **C5** — Optimistic create: after `onMutate` the cached list is exactly
the previous list plus one appended provisional entry whose id carries the
`tmp_` placeholder; after remote success the provisional entry is
replaced in place by the server entity, leaving no duplicate ids and no
leftover placeholder; after remote failure the cache is exactly the
pre-call snapshot. -/
theorem C5_optimistic_create (prev : List Issue) (input : CreateIssueInput)
    (uuid : String) (created : Issue)
    (hTmp : tempIdOf uuid ∉ prev.map (fun it => it.id))
    (hCr : created.id ∉ prev.map (fun it => it.id))
    (hNe : created.id ≠ tempIdOf uuid)
    (hNd : (prev.map (fun it => it.id)).Nodup) :
    createOnMutate prev input uuid = prev ++ [optimisticIssue input uuid] ∧
    (optimisticIssue input uuid).id = "tmp_" ++ uuid ∧
    createOnSuccess (createOnMutate prev input uuid) created (tempIdOf uuid) =
      prev ++ [created] ∧
    tempIdOf uuid ∉ (prev ++ [created]).map (fun it => it.id) ∧
    ((prev ++ [created]).map (fun it => it.id)).Nodup ∧
    createOnError (createOnMutate prev input uuid) prev = prev := by
  refine ⟨rfl, rfl, ?_, ?_, ?_, rfl⟩
  · show (prev ++ [optimisticIssue input uuid]).map
        (fun it : Issue => if it.id = tempIdOf uuid then created else it) =
      prev ++ [created]
    rw [List.map_append]
    congr 1
    · have h1 : ∀ it ∈ prev,
          (if it.id = tempIdOf uuid then created else it) = it := by
        intro it hit
        rw [if_neg]
        intro hEq
        exact hTmp (hEq ▸ List.mem_map_of_mem (fun it : Issue => it.id) hit)
      calc prev.map (fun it : Issue => if it.id = tempIdOf uuid then created else it)
          = prev.map (fun it : Issue => it) := List.map_congr_left h1
        _ = prev := List.map_id' prev
    · show [if (optimisticIssue input uuid).id = tempIdOf uuid then created
              else optimisticIssue input uuid] = [created]
      rw [if_pos (show (optimisticIssue input uuid).id = tempIdOf uuid from rfl)]
  · rw [List.map_append]
    intro hmem
    rcases List.mem_append.mp hmem with h | h
    · exact hTmp h
    · simp only [List.map_cons, List.map_nil, List.mem_singleton] at h
      exact hNe h.symm
  · rw [List.map_append, List.nodup_append]
    refine ⟨hNd, by simp, ?_⟩
    intro x hx hx'
    simp only [List.map_cons, List.map_nil, List.mem_singleton] at hx'
    exact hCr (hx' ▸ hx)

/-- Witness for C5 at a concrete cache, input, uuid and server entity. -/
theorem C5_optimistic_create_witness :
    createOnSuccess (createOnMutate [sampleIssue "a" .backlog 1000] sampleInput "u1")
        (sampleIssue "srv" .backlog 2000) (tempIdOf "u1") =
      [sampleIssue "a" .backlog 1000, sampleIssue "srv" .backlog 2000] ∧
    tempIdOf "u1" ∉
      ([sampleIssue "a" .backlog 1000, sampleIssue "srv" .backlog 2000].map
        (fun it => it.id)) :=
  have h := C5_optimistic_create [sampleIssue "a" .backlog 1000] sampleInput "u1"
    (sampleIssue "srv" .backlog 2000) (by decide) (by decide) (by decide) (by decide)
  ⟨h.2.2.1, h.2.2.2.1⟩

/-- **C10** — The optimistic cache write of a batch patch preserves the
list's length and every entry's identity and position (stated pointwise via
`getElem?`); a matching change merges its present patch fields in place
while `id`/`key` and every absent field are unchanged; a change whose id is
absent from the cache is silently dropped. -/
theorem C10_batchPatch_onMutate_frame (prev : List Issue) (changes : List IssueChange) :
    (batchPatchOnMutate prev changes).length = prev.length ∧
    (batchPatchOnMutate prev changes).map (fun it => it.id) =
      prev.map (fun it => it.id) ∧
    (∀ i : Nat, (batchPatchOnMutate prev changes)[i]? =
      (prev[i]?).map (fun it : Issue =>
        match lookupPatch changes it.id with
        | some p => applyPatch it p
        | none => it)) ∧
    (∀ it : Issue, ∀ p : PatchInput,
      (applyPatch it p).id = it.id ∧
      (applyPatch it p).key = it.key ∧
      (p.order = none → (applyPatch it p).order = it.order) ∧
      (p.status = none → (applyPatch it p).status = it.status) ∧
      (p.sprintId = none → (applyPatch it p).sprintId = it.sprintId) ∧
      (p.title = none → (applyPatch it p).title = it.title) ∧
      (p.description = none → (applyPatch it p).description = it.description) ∧
      (p.assigneeId = none → (applyPatch it p).assigneeId = it.assigneeId) ∧
      (p.watcherIds = none → (applyPatch it p).watcherIds = it.watcherIds) ∧
      (∀ v, p.order = some v → (applyPatch it p).order = v) ∧
      (∀ v, p.status = some v → (applyPatch it p).status = v)) ∧
    (∀ c : IssueChange, c.id ∉ prev.map (fun it => it.id) →
      batchPatchOnMutate prev (changes ++ [c]) = batchPatchOnMutate prev changes) := by
  refine ⟨by simp [batchPatchOnMutate], ?_, ?_, ?_, ?_⟩
  · rw [batchPatchOnMutate, List.map_map]
    refine List.map_congr_left ?_
    intro it hit
    show (match lookupPatch changes it.id with
          | some p => applyPatch it p
          | none => it).id = it.id
    cases lookupPatch changes it.id <;> rfl
  · intro i
    simp [batchPatchOnMutate, List.getElem?_map]
  · intro it p
    refine ⟨rfl, rfl, ?_, ?_, ?_, ?_, ?_, ?_, ?_, ?_, ?_⟩ <;>
      intro h <;> try simp [applyPatch, h]
    all_goals (intro h2; simp [applyPatch, h2])
  · intro c hc
    unfold batchPatchOnMutate
    refine List.map_congr_left ?_
    intro it hit
    have hid : ¬ (c.id = it.id) := by
      intro e
      exact hc (e ▸ List.mem_map_of_mem (fun it : Issue => it.id) hit)
    have hl : lookupPatch (changes ++ [c]) it.id = lookupPatch changes it.id := by
      unfold lookupPatch
      rw [List.reverse_append]
      simp [hid]
    rw [hl]

/-- Witness for C10 at a concrete cache and patch list. -/
theorem C10_batchPatch_onMutate_frame_witness :
    (batchPatchOnMutate [sampleIssue "a" .todo 1000, sampleIssue "b" .todo 2000]
        [{ id := "a", patch := { order := some 5000 } }]).map (fun it => it.id) =
      ["a", "b"] ∧
    batchPatchOnMutate [sampleIssue "a" .todo 1000, sampleIssue "b" .todo 2000]
        ([{ id := "a", patch := { order := some 5000 } }] ++
          [{ id := "zz", patch := { order := some 1 } }]) =
      batchPatchOnMutate [sampleIssue "a" .todo 1000, sampleIssue "b" .todo 2000]
        [{ id := "a", patch := { order := some 5000 } }] :=
  have h := C10_batchPatch_onMutate_frame
    [sampleIssue "a" .todo 1000, sampleIssue "b" .todo 2000]
    [{ id := "a", patch := { order := some 5000 } }]
  ⟨by rw [h.2.1]; decide,
    h.2.2.2.2 { id := "zz", patch := { order := some 1 } } (by decide)⟩

theorem applyUpdate_status (i : Issue) (d : UpdateData) :
    (applyUpdate i d).status = d.status.getD i.status := rfl

/-- The status rule actually implemented by `IssuesService.patch`: an
explicit `status` in the patch is copied first and then overwritten by the
sprint-move rules whenever `sprintId` is present. -/
theorem buildPatchData_status (i : Issue) (p : PatchInput) :
    (buildPatchData i p).status =
      match p.sprintId with
      | some none => some .backlog
      | some (some _) => if i.status = .backlog then some .todo else p.status
      | none => p.status := by
  rcases p with ⟨t, d, st, o, a, w, sp⟩
  rcases sp with _ | sid
  · cases t <;> cases d <;> cases st <;> cases o <;> cases a <;> cases w <;> rfl
  · rcases sid with _ | s <;>
      cases t <;> cases d <;> cases st <;> cases o <;> cases a <;> cases w <;>
      first
        | rfl
        | (by_cases hb : i.status = IssueStatus.backlog <;>
            simp only [buildPatchData, hb, if_pos, if_neg, ite_true, ite_false])

/-- The status rule of `IssuesService.buildBatchPatchData`: a present
`sprintId` forces `backlog` (null) or `todo` (non-null) unconditionally. -/
theorem buildBatchPatchData_status (p : PatchInput) :
    (buildBatchPatchData p).status =
      match p.sprintId with
      | some none => some .backlog
      | some (some _) => some .todo
      | none => p.status := by
  rcases p with ⟨t, d, st, o, a, w, sp⟩
  rcases sp with _ | sid
  · cases st <;> cases o <;> cases a <;> cases w <;> rfl
  · rcases sid with _ | s <;> cases st <;> cases o <;> cases a <;> cases w <;> rfl

/-- **C4** counterexample — the claim states that when a backlog issue is
moved into a sprint, an explicitly supplied status wins. In the code the
forced `todo` is written after the copied `status` key: patching a backlog
issue with `{ sprintId: "S1", status: "done" }` yields status `todo`, not
the supplied `done`. -/
theorem C4_counterexample :
    (applyUpdate (sampleIssue "x" .backlog 0)
        (buildPatchData (sampleIssue "x" .backlog 0)
          { status := some .done, sprintId := some (some "S1") })).status =
      IssueStatus.todo ∧
    IssueStatus.todo ≠ IssueStatus.done := by
  exact ⟨by decide, by decide⟩

/-- **C4** (amended) — Status rules actually implemented: a patch with
`sprintId: null` forces status `backlog`; a patch moving a backlog issue
into a non-null sprint forces `todo` even when the patch explicitly supplies
a status; an explicitly supplied status takes effect only when the issue was
not in backlog (or when `sprintId` is absent); a non-backlog issue moved
into a sprint without an explicit status keeps its status. The batch
variant (`buildBatchPatchData`) forces `backlog`/`todo` from `sprintId`
alone, ignoring both the existing and any supplied status. -/
theorem C4_sprint_status_rules (i : Issue) (p : PatchInput) :
    (p.sprintId = some none →
      (applyUpdate i (buildPatchData i p)).status = .backlog ∧
      (buildBatchPatchData p).status = some .backlog) ∧
    (∀ sid : String, p.sprintId = some (some sid) →
      (i.status = .backlog → (applyUpdate i (buildPatchData i p)).status = .todo) ∧
      (i.status ≠ .backlog →
        (applyUpdate i (buildPatchData i p)).status = p.status.getD i.status) ∧
      (buildBatchPatchData p).status = some .todo) ∧
    (p.sprintId = none →
      (applyUpdate i (buildPatchData i p)).status = p.status.getD i.status) := by
  rw [applyUpdate_status, buildPatchData_status, buildBatchPatchData_status]
  refine ⟨?_, ?_, ?_⟩
  · intro h
    rw [h]
    exact ⟨rfl, rfl⟩
  · intro sid h
    rw [h]
    refine ⟨?_, ?_, rfl⟩
    · intro hb
      rw [if_pos hb]
      rfl
    · intro hnb
      rw [if_neg hnb]
  · intro h
    rw [h]

/-- Witness for C4 at concrete issues and patches: a non-backlog issue moved
into a sprint with no explicit status keeps its status, and a `null` sprint
forces backlog. -/
theorem C4_sprint_status_rules_witness :
    (applyUpdate (sampleIssue "x" .in_progress 0)
        (buildPatchData (sampleIssue "x" .in_progress 0)
          { sprintId := some (some "S") })).status = IssueStatus.in_progress ∧
    (applyUpdate (sampleIssue "y" .done 0)
        (buildPatchData (sampleIssue "y" .done 0)
          { sprintId := some none })).status = IssueStatus.backlog :=
  have h1 := C4_sprint_status_rules (sampleIssue "x" .in_progress 0)
    { sprintId := some (some "S") }
  have h2 := C4_sprint_status_rules (sampleIssue "y" .done 0)
    { sprintId := some none }
  ⟨(h1.2.1 "S" rfl).2.1 (by decide), (h2.1 rfl).1⟩

theorem activate_deactivate_eq (db : List Sprint) (b sid : String)
    (hb : ∀ s ∈ db, s.id = sid → s.boardId = b) :
    activateSprint (deactivateAll db b) sid =
      db.map (fun s : Sprint =>
        if s.boardId = b then { s with isActive := decide (s.id = sid) } else s) := by
  unfold activateSprint deactivateAll
  rw [List.map_map]
  refine List.map_congr_left ?_
  intro s hs
  rcases s with ⟨i0, b0, n0, a0⟩
  by_cases hb0 : b0 = b
  · cases a0 <;> by_cases hid : i0 = sid <;> simp [hb0, hid]
  · have hid : ¬ i0 = sid := fun hEq => hb0 (hb _ hs hEq)
    simp [hb0, hid]

theorem countP_sprint_id_le_one (db : List Sprint) (sid : String)
    (h : (db.map (fun s => s.id)).Nodup) :
    db.countP (fun s : Sprint => s.id = sid) ≤ 1 := by
  induction db with
  | nil => simp
  | cons s t ih =>
    simp only [List.map_cons, List.nodup_cons] at h
    rw [List.countP_cons]
    by_cases hd : s.id = sid
    · have ht0 : t.countP (fun s : Sprint => s.id = sid) = 0 := by
        rw [List.countP_eq_zero]
        intro x hx hxe
        have hxid : x.id = sid := by simpa using hxe
        apply h.1
        have hmem : x.id ∈ t.map (fun s : Sprint => s.id) :=
          List.mem_map_of_mem (fun s : Sprint => s.id) hx
        rw [hxid] at hmem
        rw [hd]
        exact hmem
      simp [hd, ht0]
    · simp [hd, ih h.2]

theorem activeSprints_map_target (db : List Sprint) (b sid : String) :
    activeSprints (db.map (fun s : Sprint =>
        if s.boardId = b then { s with isActive := decide (s.id = sid) } else s)) b =
      (db.filter (fun s : Sprint => s.boardId = b ∧ s.id = sid)).map
        (fun s : Sprint => { s with isActive := true }) := by
  induction db with
  | nil => rfl
  | cons s t ih =>
    rcases s with ⟨i0, b0, n0, a0⟩
    by_cases hb0 : b0 = b
    · by_cases hid : i0 = sid <;>
        simp [activeSprints, List.filter_cons, hb0, hid] <;>
        simpa [activeSprints] using ih
    · simp [activeSprints, List.filter_cons, hb0]
      simpa [activeSprints] using ih

theorem activeSprints_map_other (db : List Sprint) (b sid b' : String)
    (hne : b' ≠ b) :
    activeSprints (db.map (fun s : Sprint =>
        if s.boardId = b then { s with isActive := decide (s.id = sid) } else s)) b' =
      activeSprints db b' := by
  induction db with
  | nil => rfl
  | cons s t ih =>
    rcases s with ⟨i0, b0, n0, a0⟩
    by_cases hb0 : b0 = b
    · cases a0 <;>
        simp [activeSprints, hb0, Ne.symm hne] at ih ⊢ <;>
        exact ih
    · cases a0 <;> by_cases hbb : b0 = b' <;>
        simp [activeSprints, hb0, hbb, hne] at ih ⊢ <;>
        simp [ih]

theorem activeSprints_deactivateAll_self (db : List Sprint) (b : String) :
    activeSprints (deactivateAll db b) b = [] := by
  induction db with
  | nil => rfl
  | cons s t ih =>
    rcases s with ⟨i0, b0, n0, a0⟩
    by_cases hb0 : b0 = b <;> cases a0 <;>
      simp [activeSprints, deactivateAll, hb0] at ih ⊢ <;>
      simpa [activeSprints, deactivateAll] using ih

theorem activeSprints_deactivateAll_other (db : List Sprint) (b b' : String)
    (hne : b' ≠ b) :
    activeSprints (deactivateAll db b) b' = activeSprints db b' := by
  induction db with
  | nil => rfl
  | cons s t ih =>
    rcases s with ⟨i0, b0, n0, a0⟩
    by_cases hb0 : b0 = b
    · cases a0 <;>
        simp [activeSprints, deactivateAll, hb0, Ne.symm hne] at ih ⊢ <;>
        exact ih
    · cases a0 <;> by_cases hbb : b0 = b' <;>
        simp [activeSprints, deactivateAll, hb0, hbb, hne] at ih ⊢ <;>
        simp [ih]

theorem activeSprints_append (l₁ l₂ : List Sprint) (b : String) :
    activeSprints (l₁ ++ l₂) b = activeSprints l₁ b ++ activeSprints l₂ b := by
  simp [activeSprints, List.filter_append]

/-- **C6** counterexample — the first `setActiveSprint` variant does not
check that the sprint belongs to the board: activating board B2's inactive
sprint "s2" through board id "B1" deactivates nothing in B2 (only B1's
actives are cleared) and turns "s2" active next to the still-active "s1",
leaving two active sprints on board B2 in a reachable state. -/
theorem C6_counterexample :
    setActiveSprintUnchecked
        [{ id := "s1", boardId := "B2", name := "x", isActive := true },
         { id := "s2", boardId := "B2", name := "y", isActive := false }]
        "B1" "s2" =
      .ok [{ id := "s1", boardId := "B2", name := "x", isActive := true },
           { id := "s2", boardId := "B2", name := "y", isActive := true }] ∧
    ¬ atMostOneActive
        [{ id := "s1", boardId := "B2", name := "x", isActive := true },
         { id := "s2", boardId := "B2", name := "y", isActive := true }] := by
  refine ⟨by rfl, ?_⟩
  intro h
  have h2 := h "B2"
  have hl : (activeSprints
      [{ id := "s1", boardId := "B2", name := "x", isActive := true },
       { id := "s2", boardId := "B2", name := "y", isActive := true }] "B2").length = 2 := by
    decide
  omega

/-- **C6** (amended) — With the board-membership guard (the second
`setActiveSprint` variant), activating sprint `sid` on board `b` atomically
yields exactly: every sprint of board `b` has `isActive = (id = sid)` (so a
previously active S1 ends inactive and S2 ends active) and sprints of other
boards are untouched; the at-most-one-active-per-board invariant is
preserved, and `createSprint` preserves it as well. The unchecked first
variant violates the invariant when handed a sprint of a different board
(see the counterexample). Each transaction is modelled as one atomic
transition, so no intermediate state is observable. -/
theorem C6_sprint_activation (db : List Sprint) (b sid : String) (db' : List Sprint)
    (hnd : (db.map (fun s => s.id)).Nodup)
    (hInv : atMostOneActive db)
    (h : setActiveSprint db b sid = .ok db') :
    db' = db.map (fun s : Sprint =>
      if s.boardId = b then { s with isActive := decide (s.id = sid) } else s) ∧
    atMostOneActive db' ∧
    (∀ name : String, ∀ act : Option Bool, ∀ nid b₂ : String,
      atMostOneActive (createSprint db b₂ name act nid)) := by
  have hfind :
      ∃ s0, db.find? (fun s : Sprint => s.id = sid ∧ s.boardId = b) = some s0 := by
    unfold setActiveSprint at h
    cases hf : db.find? (fun s : Sprint => s.id = sid ∧ s.boardId = b) with
    | none => rw [hf] at h; exact absurd h (by simp)
    | some s0 => exact ⟨s0, rfl⟩
  obtain ⟨s0, hf⟩ := hfind
  have hs0 : s0.id = sid ∧ s0.boardId = b := by
    have := List.find?_some hf
    simpa using this
  have hs0mem : s0 ∈ db := List.mem_of_find?_eq_some hf
  have hb : ∀ s ∈ db, s.id = sid → s.boardId = b := by
    intro s hs hsid
    have : s = s0 :=
      List.inj_on_of_nodup_map hnd hs hs0mem (by rw [hsid, hs0.1])
    rw [this, hs0.2]
  have hdb' : db' = activateSprint (deactivateAll db b) sid := by
    unfold setActiveSprint at h
    rw [hf] at h
    exact (Except.ok.inj h).symm
  have heq := activate_deactivate_eq db b sid hb
  refine ⟨hdb' ▸ heq, ?_, ?_⟩
  · intro b'
    rw [hdb', heq]
    by_cases hb' : b' = b
    · rw [hb', activeSprints_map_target]
      rw [List.length_map, ← List.countP_eq_length_filter]
      calc db.countP (fun s : Sprint => decide (s.boardId = b ∧ s.id = sid))
          ≤ db.countP (fun s : Sprint => s.id = sid) := by
            refine List.countP_mono_left ?_
            intro a ha hpa
            simp only [decide_eq_true_eq] at hpa
            simpa using hpa.2
        _ ≤ 1 := countP_sprint_id_le_one db sid hnd
    · rw [activeSprints_map_other db b sid b' hb']
      exact hInv b'
  · intro name act nid b₂ b'
    unfold createSprint
    cases hact : act.getD false
    · simp only [Bool.false_eq_true, if_false]
      rw [activeSprints_append, List.length_append]
      have hsing : activeSprints
          [{ id := nid, boardId := b₂, name := name, isActive := false }] b' = [] := by
        simp [activeSprints]
      rw [hsing]
      simpa using hInv b'
    · simp only [if_true]
      rw [activeSprints_append, List.length_append]
      by_cases hb' : b' = b₂
      · rw [hb', activeSprints_deactivateAll_self]
        have hsing : activeSprints
            [{ id := nid, boardId := b₂, name := name, isActive := true }] b₂ =
            [{ id := nid, boardId := b₂, name := name, isActive := true }] := by
          simp [activeSprints]
        rw [hsing]
        simp
      · rw [activeSprints_deactivateAll_other db b₂ b' hb']
        have hsing : activeSprints
            [{ id := nid, boardId := b₂, name := name, isActive := true }] b' = [] := by
          simp [activeSprints, Ne.symm hb']
        rw [hsing]
        simpa using hInv b'

/-- Witness for C6: activating "s2" on a board where "s1" is active flips
exactly the two flags. -/
theorem C6_sprint_activation_witness :
    setActiveSprint
        [{ id := "s1", boardId := "B1", name := "x", isActive := true },
         { id := "s2", boardId := "B1", name := "y", isActive := false }]
        "B1" "s2" =
      .ok [{ id := "s1", boardId := "B1", name := "x", isActive := false },
           { id := "s2", boardId := "B1", name := "y", isActive := true }] ∧
    atMostOneActive
      (([{ id := "s1", boardId := "B1", name := "x", isActive := true },
         { id := "s2", boardId := "B1", name := "y", isActive := false }] : List Sprint).map
        (fun s : Sprint =>
          if s.boardId = "B1" then { s with isActive := decide (s.id = "s2") } else s)) := by
  have hok : setActiveSprint
      [{ id := "s1", boardId := "B1", name := "x", isActive := true },
       { id := "s2", boardId := "B1", name := "y", isActive := false }]
      "B1" "s2" =
    .ok (activateSprint (deactivateAll
      [{ id := "s1", boardId := "B1", name := "x", isActive := true },
       { id := "s2", boardId := "B1", name := "y", isActive := false }] "B1") "s2") := by
    rfl
  have h := C6_sprint_activation
    [{ id := "s1", boardId := "B1", name := "x", isActive := true },
     { id := "s2", boardId := "B1", name := "y", isActive := false }]
    "B1" "s2"
    (activateSprint (deactivateAll
      [{ id := "s1", boardId := "B1", name := "x", isActive := true },
       { id := "s2", boardId := "B1", name := "y", isActive := false }] "B1") "s2")
    (by decide)
    (by
      intro bq
      unfold activeSprints
      by_cases hbq : ("B1" : String) = bq <;> simp [hbq])
    hok
  refine ⟨?_, ?_⟩
  · rw [hok]
    rfl
  · rw [← h.1]
    exact h.2.1

theorem pickerStep_atMostOne (mc : Nat) (ra : Bool) (s : PickerState)
    (e : PickerEvent) (h : atMostOnePending s) :
    atMostOnePending (pickerStep mc ra s e) := by
  rcases h with hpe | ⟨r, hpe, href⟩
  · cases e with
    | effectRun d =>
      by_cases hq : (strTrim d).length < mc
      · simp only [pickerStep, if_pos hq]
        left
        simp [abortCurrent, hpe]
      · simp only [pickerStep, if_neg hq]
        right
        refine ⟨newRequest s (strTrim d), ?_, rfl⟩
        show (abortCurrent s).pending ++ [newRequest s (strTrim d)] = [newRequest s (strTrim d)]
        simp [abortCurrent, hpe]
    | success rid res =>
      simp only [pickerStep, hpe, List.find?_nil]
      left; exact hpe
    | failure rid =>
      simp only [pickerStep, hpe, List.find?_nil]
      left; exact hpe
    | arrowDown => left; exact hpe
    | arrowUp => left; exact hpe
  · cases e with
    | effectRun d =>
      have habort : (abortCurrent s).pending = [] := by
        simp [abortCurrent, hpe, href]
      by_cases hq : (strTrim d).length < mc
      · simp only [pickerStep, if_pos hq]
        left
        exact habort
      · simp only [pickerStep, if_neg hq]
        right
        refine ⟨newRequest s (strTrim d), ?_, rfl⟩
        show (abortCurrent s).pending ++ [newRequest s (strTrim d)] = [newRequest s (strTrim d)]
        rw [habort]
        rfl
    | success rid res =>
      by_cases hr : r.rid = rid
      · have hf : s.pending.find? (fun r2 : ReqInfo => r2.rid = rid) = some r := by
          simp [hpe, hr]
        simp only [pickerStep, hf]
        left
        simp [hpe, hr]
      · have hf : s.pending.find? (fun r2 : ReqInfo => r2.rid = rid) = none := by
          simp [hpe, hr]
        simp only [pickerStep, hf]
        right; exact ⟨r, hpe, href⟩
    | failure rid =>
      by_cases hr : r.rid = rid
      · have hf : s.pending.find? (fun r2 : ReqInfo => r2.rid = rid) = some r := by
          simp [hpe, hr]
        simp only [pickerStep, hf]
        left
        simp [hpe, hr]
      · have hf : s.pending.find? (fun r2 : ReqInfo => r2.rid = rid) = none := by
          simp [hpe, hr]
        simp only [pickerStep, hf]
        right; exact ⟨r, hpe, href⟩
    | arrowDown => right; exact ⟨r, hpe, href⟩
    | arrowUp => right; exact ⟨r, hpe, href⟩

theorem runPicker_atMostOne (mc : Nat) (ra : Bool) (evs : List PickerEvent) :
    atMostOnePending (runPicker mc ra initPicker evs) := by
  suffices h : ∀ s : PickerState, atMostOnePending s →
      atMostOnePending (runPicker mc ra s evs) from h initPicker (Or.inl rfl)
  induction evs with
  | nil => intro s hs; exact hs
  | cons e t ih =>
    intro s hs
    exact ih _ (pickerStep_atMostOne mc ra s e hs)

theorem pickerStep_stale (mc : Nat) (ra : Bool) (s : PickerState) (rid : Nat)
    (res : List Entity) (h : isPending s rid = false) :
    pickerStep mc ra s (.success rid res) = s ∧ pickerStep mc ra s (.failure rid) = s := by
  have h' : ∀ x ∈ s.pending, ¬ (x.rid = rid) := by
    intro x hx hEq
    have hT : isPending s rid = true := by
      unfold isPending
      rw [List.any_eq_true]
      exact ⟨x, hx, by simpa using hEq⟩
    rw [h] at hT
    cases hT
  have hf : s.pending.find? (fun r : ReqInfo => r.rid = rid) = none := by
    rw [List.find?_eq_none]
    intro x hx
    simpa using h' x hx
  constructor <;> simp [pickerStep, hf]

/-- **C7** — At most one search request is outstanding per controller
instance in every reachable state (the single pending request is the one the
current cancellation token owns, because each effect run aborts the previous
controller before dispatching); the keystroke trace "jo" at t=0 followed by
"joh" at t=100 (inside the 250ms debounce window, minChars 2) dispatches
exactly one request, for "joh"; and a response or rejection arriving for a
request that is no longer pending (superseded/aborted) leaves the whole
state — in particular items, error, loading and the highlight — untouched,
regardless of arrival order. Holds for both controller variants
(`resetAlways` covers `EntityPicker`; the debounce model is taken from the
spec since `useDebouncedValue.ts` is not in the snapshot). -/
theorem C7_single_outstanding (mc : Nat) (ra : Bool) :
    (∀ evs : List PickerEvent, atMostOnePending (runPicker mc ra initPicker evs)) ∧
    dispatchedQueries 2 250 [(0, "jo"), (100, "joh")] = ["joh"] ∧
    (∀ s : PickerState, ∀ rid : Nat, ∀ res : List Entity,
      isPending s rid = false →
      pickerStep mc ra s (.success rid res) = s ∧
      pickerStep mc ra s (.failure rid) = s) := by
  refine ⟨runPicker_atMostOne mc ra, by decide, ?_⟩
  intro s rid res h
  exact pickerStep_stale mc ra s rid res h

/-- Witness for C7: a concrete two-keystroke trace and a concrete stale
response at the initial state. -/
theorem C7_single_outstanding_witness :
    atMostOnePending (runPicker 2 false initPicker
      [.effectRun "jo", .effectRun "joh"]) ∧
    pickerStep 2 false initPicker (.success 5 []) = initPicker :=
  have h := C7_single_outstanding 2 false
  ⟨h.1 [.effectRun "jo", .effectRun "joh"],
    (h.2.2 initPicker 5 [] (by decide)).1⟩

/-- **C8** counterexample — the single-select `EntityPicker` resets the
highlight on every successful response, not only when the effective query
changes: after results for "ab" arrive and the user moves the highlight to
index 1, a second dispatch for the same effective query (debounced raw input
"ab ", same trimmed value) completes and yanks the highlight back to 0. -/
theorem C8_counterexample :
    strTrim "ab " = strTrim "ab" ∧
    (runPicker 2 true initPicker
      [.effectRun "ab",
       .success 0 [{ id := "1", label := "x" }, { id := "2", label := "y" }],
       .arrowDown]).activeIndex = 1 ∧
    (runPicker 2 true initPicker
      [.effectRun "ab",
       .success 0 [{ id := "1", label := "x" }, { id := "2", label := "y" }],
       .arrowDown,
       .effectRun "ab ",
       .success 1 [{ id := "1", label := "x" }, { id := "2", label := "y" }]]).activeIndex
      = 0 := by
  refine ⟨by decide, by decide, by decide⟩

/-- **C8** (amended) — In the multi-picker hook the highlight reset is
keyed on the `isNewQuery` flag: an effect run for a query whose trimmed
value reaches the threshold dispatches a request tagged with
`isNewQuery = (trimmed ≠ lastQueryRef)`, and a response arriving for a
request tagged `isNewQuery = false` (same effective query as the previous
dispatch) leaves the user's highlight untouched, while a response for a new
effective query resets it to the first option. The single-select
`EntityPicker` instead resets the highlight on every successful response
(see the counterexample). -/
theorem C8_active_index_reset (mc : Nat) :
    (∀ s : PickerState, ∀ q : String, mc ≤ (strTrim q).length →
      (pickerStep mc false s (.effectRun q)).pending =
        (abortCurrent s).pending ++ [newRequest s (strTrim q)] ∧
      (newRequest s (strTrim q)).isNewQuery = decide (strTrim q ≠ s.lastQuery)) ∧
    (∀ s : PickerState, ∀ rid : Nat, ∀ res : List Entity, ∀ r : ReqInfo,
      s.pending.find? (fun r2 : ReqInfo => r2.rid = rid) = some r →
      (r.isNewQuery = false →
        (pickerStep mc false s (.success rid res)).activeIndex = s.activeIndex) ∧
      (r.isNewQuery = true →
        (pickerStep mc false s (.success rid res)).activeIndex = 0)) := by
  constructor
  · intro s q hq
    have hnl : ¬ (strTrim q).length < mc := not_lt.mpr hq
    constructor
    · simp only [pickerStep, if_neg hnl]
    · rfl
  · intro s rid res r hf
    constructor
    · intro hflag
      simp [pickerStep, hf, hflag]
    · intro hflag
      simp [pickerStep, hf, hflag]

/-- Witness for C8 at a concrete state with one pending same-query request:
the response keeps the highlight at index 1. -/
theorem C8_active_index_reset_witness :
    (pickerStep 2 false
      { items := [{ id := "1", label := "x" }, { id := "2", label := "y" }],
        loading := true, error := none, activeIndex := 1, lastQuery := "ab",
        pending := [{ rid := 0, query := "ab", isNewQuery := false }],
        abortRef := some 0, nextRid := 1 }
      (.success 0 [{ id := "1", label := "x" }])).activeIndex = 1 :=
  ((C8_active_index_reset 2).2
    { items := [{ id := "1", label := "x" }, { id := "2", label := "y" }],
      loading := true, error := none, activeIndex := 1, lastQuery := "ab",
      pending := [{ rid := 0, query := "ab", isNewQuery := false }],
      abortRef := some 0, nextRid := 1 }
    0 [{ id := "1", label := "x" }]
    { rid := 0, query := "ab", isNewQuery := false }
    (by decide)).1 rfl

theorem mem_partitionList {db : List Issue} {b : String} {sp : Option String}
    {st : IssueStatus} {x : Issue} :
    x ∈ partitionList db b sp st ↔
      x ∈ db ∧ x.boardId = b ∧ x.sprintId = sp ∧ x.status = st := by
  unfold partitionList sortByOrder
  rw [(List.perm_insertionSort _ _).mem_iff, List.mem_filter]
  simp

theorem find_normServer_append (n : Nat) (l : List Issue) (m : Issue) (id : String)
    (hl : ∀ x ∈ l, x.id ≠ id) (hm : m.id = id) :
    (((l ++ [m]).enumFrom n).map (fun p =>
        ({ id := p.2.id, order := ((p.1 : Int) + 1) * 1000 } : IdOrder))).find?
      (fun u : IdOrder => u.id = id) =
      some { id := m.id, order := (((n + l.length : Nat) : Int) + 1) * 1000 } := by
  induction l generalizing n with
  | nil =>
    simp only [List.nil_append, List.enumFrom, List.map_cons, List.map_nil]
    rw [List.find?_cons_of_pos _ (by simpa using hm)]
    simp
  | cons x t ih =>
    simp only [List.cons_append, List.enumFrom, List.map_cons]
    rw [List.find?_cons_of_neg _ (by simpa using hl x (by simp))]
    have ih' := ih (n + 1) (fun y hy => hl y (by simp [hy]))
    simp only [List.append_eq]
    rw [ih']
    have harith : ((n + 1 + t.length : Nat) : Int) = ((n + (x :: t).length : Nat) : Int) := by
      push_cast
      simp [List.length_cons]
      omega
    rw [harith]

theorem find_normServer_append0 (l : List Issue) (m : Issue) (id : String)
    (hl : ∀ x ∈ l, x.id ≠ id) (hm : m.id = id) :
    (normalizeOrdersServer (l ++ [m])).find? (fun u : IdOrder => u.id = id) =
      some { id := m.id, order := ((l.length : Int) + 1) * 1000 } := by
  have h := find_normServer_append 0 l m id hl hm
  show (((l ++ [m]).enumFrom 0).map (fun p =>
      ({ id := p.2.id, order := ((p.1 : Int) + 1) * 1000 } : IdOrder))).find?
    (fun u : IdOrder => u.id = id) = _
  rw [h]
  norm_num

/-- **C9** — For a server-side move whose destination (sprintId, status)
differs from the source, the moved issue is always appended at the end of
the destination column before normalization, so after the transaction its
row carries the destination sprint, the destination status (the request
status, defaulted to `todo`/`backlog` from the destination sprint), and
order `(destinationColumnSize + 1) * 1000`; the `order` value of the
request body is never read, so the result does not depend on it. -/
theorem C9_moveIssue_appends_at_end (db : List Issue) (boardId id : String)
    (body : MoveBody) (issue : Issue)
    (hf : db.find? (fun i : Issue => i.id = id) = some issue)
    (hb : issue.boardId = boardId)
    (hnd : (db.map (fun i => i.id)).Nodup)
    (hdiff : ¬ (issue.sprintId = body.sprintId ∧
      issue.status = body.status.getD
        (if body.sprintId.isSome then IssueStatus.todo else IssueStatus.backlog))) :
    (∀ db', moveIssue db boardId id body = .ok db' →
      ∀ j ∈ db', j.id = id →
        j.sprintId = body.sprintId ∧
        j.status = body.status.getD
          (if body.sprintId.isSome then IssueStatus.todo else IssueStatus.backlog) ∧
        j.order = (((partitionList db boardId body.sprintId
          (body.status.getD
            (if body.sprintId.isSome then IssueStatus.todo
              else IssueStatus.backlog))).length : Int) + 1) * 1000) ∧
    (∀ o₁ o₂ : Option Int,
      moveIssue db boardId id { body with order := o₁ } =
        moveIssue db boardId id { body with order := o₂ }) := by
  have hid : issue.id = id := by simpa using List.find?_some hf
  have hmem : issue ∈ db := List.mem_of_find?_eq_some hf
  constructor
  · intro db' hok j hj hjid
    have hnb : ¬ (issue.boardId ≠ boardId) := by simp [hb]
    have heq : moveIssue db boardId id body =
        .ok (moveApply db boardId id body issue) := by
      simp only [moveIssue, hf]
      rw [if_neg hnb, if_neg hdiff]
      rfl
    rw [heq] at hok
    have hdb' : db' = moveApply db boardId id body issue := (Except.ok.inj hok).symm
    subst hdb'
    unfold moveApply at hj
    obtain ⟨x, hx, hfx⟩ := List.mem_map.mp hj
    have hto : ∀ y ∈ partitionList db boardId body.sprintId
        (body.status.getD
          (if body.sprintId.isSome then IssueStatus.todo else IssueStatus.backlog)),
        y.id ≠ id := by
      intro y hy hyid
      obtain ⟨hydb, hyb, hysp, hyst⟩ := mem_partitionList.mp hy
      have hyx : y = issue :=
        List.inj_on_of_nodup_map hnd hydb hmem (by rw [hyid, hid])
      exact hdiff ⟨by rw [← hyx, hysp], by rw [← hyx, hyst]⟩
    by_cases hxid : x.id = id
    · rw [if_pos hxid] at hfx
      have hfind := find_normServer_append0
        (partitionList db boardId body.sprintId
          (body.status.getD
            (if body.sprintId.isSome then IssueStatus.todo else IssueStatus.backlog)))
        { issue with
          sprintId := body.sprintId
          status := body.status.getD
            (if body.sprintId.isSome then IssueStatus.todo else IssueStatus.backlog) }
        id hto (by simpa using hid)
      rw [← hfx]
      refine ⟨rfl, rfl, ?_⟩
      show (((normalizeOrdersServer _).find?
        (fun u : IdOrder => u.id = id)).map (fun u : IdOrder => u.order)).getD 0 = _
      rw [hfind]
      rfl
    · rw [if_neg hxid] at hfx
      exfalso
      apply hxid
      rw [← hjid, ← hfx]
      cases (normalizeOrdersServer
          ((partitionList db boardId issue.sprintId issue.status).filter
            (fun y : Issue => y.id ≠ id))).find? (fun u : IdOrder => u.id = x.id) with
      | some u => rfl
      | none =>
        cases (normalizeOrdersServer
            (partitionList db boardId body.sprintId
              (body.status.getD
                (if body.sprintId.isSome then IssueStatus.todo
                  else IssueStatus.backlog)) ++
              [{ issue with
                  sprintId := body.sprintId
                  status := body.status.getD
                    (if body.sprintId.isSome then IssueStatus.todo
                      else IssueStatus.backlog) }])).find?
            (fun u : IdOrder => u.id = x.id) with
        | some u => rfl
        | none => rfl
  · intro o₁ o₂
    rfl

/-- Witness for C9: moving backlog issue "a" into sprint "S" (which already
holds one issue) lands it at the end with order 2000 and status `todo`, and
the body's `order` field has no effect. -/
theorem C9_moveIssue_appends_at_end_witness :
    ({ sampleIssue "a" .backlog 1000 with
        sprintId := some "S"
        status := IssueStatus.todo
        order := 2000 } ∈
      moveApply [sampleIssue "a" .backlog 1000, sampleSprintIssue] "B" "a"
        { sprintId := some "S" } (sampleIssue "a" .backlog 1000)) ∧
    ({ sampleIssue "a" .backlog 1000 with
        sprintId := some "S"
        status := IssueStatus.todo
        order := 2000 } : Issue).order = 2000 ∧
    moveIssue [sampleIssue "a" .backlog 1000, sampleSprintIssue] "B" "a"
        { sprintId := some "S", order := some 5 } =
      moveIssue [sampleIssue "a" .backlog 1000, sampleSprintIssue] "B" "a"
        { sprintId := some "S", order := some 7 } := by
  have h := C9_moveIssue_appends_at_end
    [sampleIssue "a" .backlog 1000, sampleSprintIssue] "B" "a"
    { sprintId := some "S" } (sampleIssue "a" .backlog 1000)
    (by decide) (by decide) (by decide) (by decide)
  refine ⟨by decide, ?_, ?_⟩
  · have hmem : ({ sampleIssue "a" .backlog 1000 with
        sprintId := some "S"
        status := IssueStatus.todo
        order := 2000 } ∈
      moveApply [sampleIssue "a" .backlog 1000, sampleSprintIssue] "B" "a"
        { sprintId := some "S" } (sampleIssue "a" .backlog 1000)) := by decide
    exact (h.1 _ rfl _ hmem (by decide)).2.2
  · exact h.2 (some 5) (some 7)

theorem mem_columnList {issues : List Issue} {s : IssueStatus} {x : Issue} :
    x ∈ columnList issues s ↔ x ∈ issues ∧ x.status = s := by
  unfold columnList sortByOrder
  rw [(List.perm_insertionSort _ _).mem_iff, List.mem_filter]
  simp

theorem findIndex_lt_length {p : Issue → Bool} {l : List Issue} {k : Nat}
    (h : findIndex p l = some k) : k < l.length := by
  induction l generalizing k with
  | nil => cases h
  | cons x t ih =>
    unfold findIndex at h
    by_cases hp : p x
    · rw [if_pos hp] at h
      cases h
      simp
    · rw [if_neg hp] at h
      cases hk : findIndex p t with
      | none => rw [hk] at h; cases h
      | some k' =>
        rw [hk] at h
        have : k = k' + 1 := by
          simpa using h.symm
        rw [this]
        have := ih hk
        simp only [List.length_cons]
        omega

/-- **C2** counterexample — in the virtualization-aware `BoardPage` variant,
a same-column drop with no resolvable over issue (column background) is NOT
a no-op: it is treated as a move to the column's last index, so dragging
the first of two issues onto the column background emits two patches. -/
theorem C2_counterexample :
    (onDragEndVirtual .sprint
      [sampleIssue "a" .todo 1000, sampleIssue "b" .todo 2000] "a"
      (some (.column .todo)) none).isSome = true ∧
    ((onDragEndVirtual .sprint
      [sampleIssue "a" .todo 1000, sampleIssue "b" .todo 2000] "a"
      (some (.column .todo)) none).getD []).length = 2 := by
  refine ⟨by decide, by decide⟩

/-- **C2** (amended) — Same-column drag-end. In the primary `BoardPage`
variant (`onDragEnd`): a drag-end with no over id at all is a no-op; a
same-column drop on the column background (no over issue) is a no-op; a
same-column drop on an issue emits no patches when the moved issue's old
index equals the over issue's index in the order-sorted column, and
otherwise emits exactly the orders of `arrayMove(list, oldIndex, newIndex)`
followed by normalization. In the virtualization-aware variant
(`onDragEndVirtual`) the background drop is instead treated as a move to
the column's last index (no-op only when the issue is already last) — see
the counterexample for the divergence from the claim. -/
theorem C2_same_column_reorder (view : View) (issues : List Issue)
    (aId oid : String) (lo : Option DragOver) :
    (onDragEnd view issues aId none = none) ∧
    (∀ active : Issue, ∀ s : IssueStatus,
      issues.find? (fun x : Issue => x.id = aId) = some active →
      active.status = s →
      onDragEnd view issues aId (some (.column s)) = none) ∧
    (∀ active ovIssue : Issue, ∀ i j : Nat,
      issues.find? (fun x : Issue => x.id = aId) = some active →
      issues.find? (fun x : Issue => x.id = oid) = some ovIssue →
      ovIssue.status = active.status →
      canShowStatus view active.status = true →
      findIndex (fun x : Issue => x.id = aId) (columnList issues active.status) = some i →
      findIndex (fun x : Issue => x.id = ovIssue.id) (columnList issues active.status) = some j →
      onDragEnd view issues aId (some (.item oid)) =
        (if i = j then none
         else some ((normalizeOrders (arrayMove (columnList issues active.status) i j)).map
           (fun it : Issue => ({ id := it.id, patch := { order := some it.order } } : IssueChange))))) ∧
    (∀ active : Issue, ∀ i : Nat,
      issues.find? (fun x : Issue => x.id = aId) = some active →
      canShowStatus view active.status = true →
      findIndex (fun x : Issue => x.id = aId) (columnList issues active.status) = some i →
      onDragEndVirtual view issues aId (some (.column active.status)) lo =
        (if i = (columnList issues active.status).length - 1 then none
         else some ((normalizeOrders (arrayMove (columnList issues active.status) i
             ((columnList issues active.status).length - 1))).map
           (fun it : Issue => ({ id := it.id, patch := { order := some it.order } } : IssueChange))))) := by
  refine ⟨rfl, ?_, ?_, ?_⟩
  · intro active s hf hs
    by_cases hc : canShowStatus view s <;>
      simp [onDragEnd, hf, overIssueOf, parseDropStatus, hs, hc]
  · intro active ovIssue i j hf hov hst hshow hi hj
    simp [onDragEnd, hf, overIssueOf, parseDropStatus, hov, hst, hshow, hi, hj]
  · intro active i hf hshow hi
    simp [onDragEndVirtual, hf, overIssueOf, parseDropStatus, hshow, hi]

/-- Witness for C2: dragging issue "c" onto issue "a" in a three-issue
column renumbers the column to [c, a, b] with orders 1000/2000/3000. -/
theorem C2_same_column_reorder_witness :
    onDragEnd .sprint
      [sampleIssue "a" .todo 1000, sampleIssue "b" .todo 2000,
       sampleIssue "c" .todo 3000] "c" (some (.item "a")) =
      some [{ id := "c", patch := { order := some 1000 } },
            { id := "a", patch := { order := some 2000 } },
            { id := "b", patch := { order := some 3000 } }] := by
  have h := (C2_same_column_reorder .sprint
      [sampleIssue "a" .todo 1000, sampleIssue "b" .todo 2000,
       sampleIssue "c" .todo 3000] "c" "a" none).2.2.1
    (sampleIssue "c" .todo 3000) (sampleIssue "a" .todo 1000) 2 0
    (by decide) (by decide) (by decide) (by decide) (by decide) (by decide)
  rw [h]
  decide

theorem nodup_ids_columnList (issues : List Issue) (s : IssueStatus)
    (hnd : (issues.map (fun i => i.id)).Nodup) :
    ((columnList issues s).map (fun i => i.id)).Nodup := by
  unfold columnList sortByOrder
  have hperm := (List.perm_insertionSort (fun a b : Issue => a.order ≤ b.order)
    (issues.filter (fun i : Issue => i.status = s))).map (fun i : Issue => i.id)
  rw [hperm.nodup_iff]
  exact List.Nodup.sublist ((List.filter_sublist issues).map (fun i : Issue => i.id)) hnd

theorem length_filter_ne_of_mem_nodup (l : List Issue) (aId : String) (x : Issue)
    (hx : x ∈ l) (hxid : x.id = aId) (hnd : (l.map (fun i => i.id)).Nodup) :
    (l.filter (fun y : Issue => y.id ≠ aId)).length = l.length - 1 := by
  induction l with
  | nil => cases hx
  | cons y t ih =>
    simp only [List.map_cons, List.nodup_cons] at hnd
    rcases List.mem_cons.mp hx with hxy | hxt
    · have hyid : y.id = aId := by rw [← hxy, hxid]
      have hts : t.filter (fun z : Issue => z.id ≠ aId) = t := by
        rw [List.filter_eq_self]
        intro z hz
        simp only [ne_eq, decide_not, Bool.not_eq_eq_eq_not, Bool.not_true,
          decide_eq_false_iff_not]
        intro hzid
        apply hnd.1
        have hmm : z.id ∈ t.map (fun i : Issue => i.id) :=
          List.mem_map_of_mem (fun i : Issue => i.id) hz
        rw [hzid, ← hyid] at hmm
        exact hmm
      rw [List.filter_cons_of_neg (by simp [hyid]), hts]
      simp
    · have hyid : y.id ≠ aId := by
        intro hEq
        apply hnd.1
        have hmm : x.id ∈ t.map (fun i : Issue => i.id) :=
          List.mem_map_of_mem (fun i : Issue => i.id) hxt
        rw [hxid] at hmm
        rw [hEq]
        exact hmm
      rw [List.filter_cons_of_pos (by simp [hyid]), List.length_cons,
        ih hxt hnd.2, List.length_cons]
      have hpos : 1 ≤ t.length := List.length_pos.mpr (List.ne_nil_of_mem hxt)
      omega

theorem insertIdx_length_self (l : List Issue) (x : Issue) :
    l.insertIdx l.length x = l ++ [x] := by
  induction l with
  | nil => rfl
  | cons y t ih => simp [List.insertIdx_succ_cons, ih]

theorem status_eq_of_mem_normalizeOrders {l : List Issue} {st : IssueStatus}
    (hall : ∀ x ∈ l, x.status = st) {y : Issue} (hy : y ∈ normalizeOrders l) :
    y.status = st := by
  have h1 : y.status ∈ (normalizeOrders l).map (fun it => it.status) :=
    List.mem_map_of_mem (fun it : Issue => it.status) hy
  rw [normalizeOrders_map_status] at h1
  obtain ⟨z, hz, hzeq⟩ := List.mem_map.mp h1
  rw [← hzeq]
  exact hall z hz

/-- **C3** counterexample — moving the only issue of a column (a = 1) to an
empty column (b = 0) emits 1 patch (the moved issue's status+order in the
normalized destination), but the claim's formula (a-1)+b predicts 0. -/
theorem C3_counterexample :
    onDragEnd .sprint [sampleIssue "a" .todo 1000] "a" (some (.column .done)) =
      some [{ id := "a", patch := { status := some .done, order := some 1000 } }] ∧
    ((onDragEnd .sprint [sampleIssue "a" .todo 1000] "a"
      (some (.column .done))).getD []).length = 1 ∧
    (1 : Nat) ≠ (1 - 1) + 0 := by
  refine ⟨by decide, by decide, by decide⟩

/-- **C3** (amended) — Cross-column drag-end from a source column of size
`a` to a destination column of size `b`: the engine emits exactly
`(a-1) + (b+1)` patches (the claim's `(a-1) + b` is off by one — the
normalized destination includes the moved issue): one patch per issue of
the normalized destination list carrying both the destination status and
the new order, and one patch per remaining issue of the normalized source
list carrying the new order only. Dropping on the column background appends
at the end; dropping on a destination issue inserts at that issue's
position. -/
theorem C3_cross_column_move (view : View) (issues : List Issue)
    (aId oid : String) (active ovIssue : Issue) (toStatus : IssueStatus)
    (hf : issues.find? (fun x : Issue => x.id = aId) = some active)
    (hne : toStatus ≠ active.status)
    (hshow : canShowStatus view toStatus = true)
    (hnd : (issues.map (fun i => i.id)).Nodup) :
    (onDragEnd view issues aId (some (.column toStatus)) =
      some ((normalizeOrders (columnList issues toStatus ++
            [{ active with status := toStatus }])).map
          (fun it : Issue =>
            ({ id := it.id,
               patch := { status := some it.status, order := some it.order } } : IssueChange)) ++
        (normalizeOrders ((columnList issues active.status).filter
            (fun x : Issue => x.id ≠ aId))).map
          (fun it : Issue =>
            ({ id := it.id, patch := { order := some it.order } } : IssueChange)))) ∧
    (∀ ch : List IssueChange,
      onDragEnd view issues aId (some (.column toStatus)) = some ch →
      ch.length = ((columnList issues active.status).length - 1) +
        ((columnList issues toStatus).length + 1) ∧
      1 ≤ (columnList issues active.status).length) ∧
    (∀ c ∈ (normalizeOrders (columnList issues toStatus ++
          [{ active with status := toStatus }])).map
        (fun it : Issue =>
          ({ id := it.id,
             patch := { status := some it.status, order := some it.order } } : IssueChange)),
      c.patch.status = some toStatus ∧ c.patch.order.isSome = true) ∧
    (∀ c ∈ (normalizeOrders ((columnList issues active.status).filter
          (fun x : Issue => x.id ≠ aId))).map
        (fun it : Issue =>
          ({ id := it.id, patch := { order := some it.order } } : IssueChange)),
      c.patch.status = none ∧ c.patch.order.isSome = true ∧ c.patch.sprintId = none) ∧
    (issues.find? (fun x : Issue => x.id = oid) = some ovIssue →
      ovIssue.status = toStatus →
      (onDragEnd view issues aId (some (.item oid)) =
        some ((normalizeOrders ((columnList issues toStatus).insertIdx
              ((findIndex (fun x : Issue => x.id = ovIssue.id)
                (columnList issues toStatus)).getD 0)
              { active with status := toStatus })).map
            (fun it : Issue =>
              ({ id := it.id,
                 patch := { status := some it.status, order := some it.order } } : IssueChange)) ++
          (normalizeOrders ((columnList issues active.status).filter
              (fun x : Issue => x.id ≠ aId))).map
            (fun it : Issue =>
              ({ id := it.id, patch := { order := some it.order } } : IssueChange)))) ∧
      (∀ ch : List IssueChange,
        onDragEnd view issues aId (some (.item oid)) = some ch →
        ch.length = ((columnList issues active.status).length - 1) +
          ((columnList issues toStatus).length + 1))) := by
  have hid : active.id = aId := by simpa using List.find?_some hf
  have hmemA : active ∈ issues := List.mem_of_find?_eq_some hf
  have hmemCol : active ∈ columnList issues active.status :=
    mem_columnList.mpr ⟨hmemA, rfl⟩
  have hto : ∀ y ∈ columnList issues toStatus, y.id ≠ aId := by
    intro y hy hyid
    obtain ⟨hydb, hyst⟩ := mem_columnList.mp hy
    have hyx : y = active :=
      List.inj_on_of_nodup_map hnd hydb hmemA (by rw [hyid, hid])
    rw [hyx] at hyst
    exact hne hyst.symm
  have hfiltTo : (columnList issues toStatus).filter
      (fun x : Issue => x.id ≠ aId) = columnList issues toStatus := by
    rw [List.filter_eq_self]
    intro x hx
    simpa using hto x hx
  have hfiltTo2 : (columnList issues toStatus).filter
      (fun x : Issue => !decide (x.id = aId)) = columnList issues toStatus := by
    rw [List.filter_eq_self]
    intro x hx
    simpa using hto x hx
  have hsrcLen : ((columnList issues active.status).filter
      (fun y : Issue => y.id ≠ aId)).length =
        (columnList issues active.status).length - 1 :=
    length_filter_ne_of_mem_nodup _ aId active hmemCol hid
      (nodup_ids_columnList issues active.status hnd)
  have hAlen : 1 ≤ (columnList issues active.status).length :=
    List.length_pos.mpr (List.ne_nil_of_mem hmemCol)
  have hcol : onDragEnd view issues aId (some (.column toStatus)) =
      some ((normalizeOrders (columnList issues toStatus ++
            [{ active with status := toStatus }])).map
          (fun it : Issue =>
            ({ id := it.id,
               patch := { status := some it.status, order := some it.order } } : IssueChange)) ++
        (normalizeOrders ((columnList issues active.status).filter
            (fun x : Issue => x.id ≠ aId))).map
          (fun it : Issue =>
            ({ id := it.id, patch := { order := some it.order } } : IssueChange))) := by
    simp [onDragEnd, hf, overIssueOf, parseDropStatus, hshow, Ne.symm hne,
      hfiltTo2, insertIdx_length_self]
  refine ⟨hcol, ?_, ?_, ?_, ?_⟩
  · intro ch hch
    rw [hcol] at hch
    have hch' := (Option.some.inj hch).symm
    subst hch'
    refine ⟨?_, hAlen⟩
    rw [List.length_append, List.length_map, List.length_map,
      normalizeOrders_length, normalizeOrders_length, List.length_append,
      hsrcLen]
    simp only [List.length_cons, List.length_nil]
    omega
  · intro c hc
    obtain ⟨it, hit, hceq⟩ := List.mem_map.mp hc
    have hall : ∀ x ∈ columnList issues toStatus ++
        [{ active with status := toStatus }], x.status = toStatus := by
      intro x hx
      rcases List.mem_append.mp hx with hx1 | hx2
      · exact (mem_columnList.mp hx1).2
      · rw [List.mem_singleton.mp hx2]
    have hst := status_eq_of_mem_normalizeOrders hall hit
    rw [← hceq]
    exact ⟨by rw [hst], rfl⟩
  · intro c hc
    obtain ⟨it, hit, hceq⟩ := List.mem_map.mp hc
    rw [← hceq]
    exact ⟨rfl, rfl, rfl⟩
  · intro hov hovst
    have hitem : onDragEnd view issues aId (some (.item oid)) =
        some ((normalizeOrders ((columnList issues toStatus).insertIdx
              ((findIndex (fun x : Issue => x.id = ovIssue.id)
                (columnList issues toStatus)).getD 0)
              { active with status := toStatus })).map
            (fun it : Issue =>
              ({ id := it.id,
                 patch := { status := some it.status, order := some it.order } } : IssueChange)) ++
          (normalizeOrders ((columnList issues active.status).filter
              (fun x : Issue => x.id ≠ aId))).map
            (fun it : Issue =>
              ({ id := it.id, patch := { order := some it.order } } : IssueChange))) := by
      cases hk : findIndex (fun x : Issue => x.id = ovIssue.id)
          (columnList issues toStatus) with
      | none =>
        simp [onDragEnd, hf, overIssueOf, parseDropStatus, hov, hovst, hshow,
          Ne.symm hne, hfiltTo2, hk]
      | some k =>
        have hklt := findIndex_lt_length hk
        simp [onDragEnd, hf, overIssueOf, parseDropStatus, hov, hovst, hshow,
          Ne.symm hne, hfiltTo2, hk, Nat.le_of_lt hklt]
    refine ⟨hitem, ?_⟩
    intro ch hch
    rw [hitem] at hch
    have hch' := (Option.some.inj hch).symm
    subst hch'
    have hkle : ((findIndex (fun x : Issue => x.id = ovIssue.id)
        (columnList issues toStatus)).getD 0) ≤
        (columnList issues toStatus).length := by
      cases hk : findIndex (fun x : Issue => x.id = ovIssue.id)
          (columnList issues toStatus) with
      | none => simp
      | some k => simpa using Nat.le_of_lt (findIndex_lt_length hk)
    rw [List.length_append, List.length_map, List.length_map,
      normalizeOrders_length, normalizeOrders_length,
      List.length_insertIdx _ _ hkle, hsrcLen]
    omega

/-- Witness for C3: moving "a" from a one-issue todo column to a one-issue
done column emits (1-1) + (1+1) = 2 patches. -/
theorem C3_cross_column_move_witness :
    ((normalizeOrders (columnList
          [sampleIssue "a" .todo 1000, sampleIssue "b" .done 1000] .done ++
        [{ sampleIssue "a" .todo 1000 with status := IssueStatus.done }])).map
      (fun it : Issue =>
        ({ id := it.id,
           patch := { status := some it.status, order := some it.order } } : IssueChange)) ++
      (normalizeOrders ((columnList
          [sampleIssue "a" .todo 1000, sampleIssue "b" .done 1000]
          (sampleIssue "a" .todo 1000).status).filter
        (fun x : Issue => x.id ≠ "a"))).map
      (fun it : Issue =>
        ({ id := it.id, patch := { order := some it.order } } : IssueChange))).length = 2 := by
  have h := C3_cross_column_move .sprint
    [sampleIssue "a" .todo 1000, sampleIssue "b" .done 1000] "a" "b"
    (sampleIssue "a" .todo 1000) (sampleIssue "b" .done 1000) .done
    (by decide) (by decide) (by decide) (by decide)
  exact (h.2.1 _ h.1).1
